import Mathlib

/-!
Shallow embedding of the replicated-text engine of this repository.

The embedded code is the `SimpleYDoc` class (character store, `getText`,
`insert`, `delete`, `undo`, `redo`, `applyRemoteOps`) and the server's
`handleUpdate` dispatch.  JavaScript arrays become Lean lists, the
`vectorClock` object becomes an association list with the JS `|| 0`
default, and the undo/redo stacks (JS `push`/`pop` at the array end) are
lists with the top of the stack at the head.  Characters of a JS string
become Lean `Char` values.  UI listeners (`notifyListeners`) carry no
engine state and are omitted.
-/

/-- Character record of the store:
`{id, value, clientId, clock, deleted, position}` as built by `insert`. -/
structure YChar where
  id : String
  value : Char
  clientId : String
  clock : Nat
  deleted : Bool
  position : Nat
deriving DecidableEq, Repr

/-- Operation kind tag (`'insert'` / `'delete'` in the JS objects). -/
inductive YOpType
  | insert
  | delete
deriving DecidableEq, Repr

/-- Operation record `{type, char, origin}` as emitted by `insert`/`delete`
and consumed by `applyRemoteOps`. -/
structure YOp where
  type : YOpType
  char : YChar
  origin : String
deriving DecidableEq, Repr

/-- Undo/redo ledger entry.  `insert` pushes `{type:'insert', text, position,
count}`; `delete` pushes `{type:'delete', position, chars}`.  `undo`/`redo`
spread in an `isRedo` flag which is never read. -/
inductive LedgerEntry
  | insertE (text : String) (position : Nat) (count : Nat) (isRedo : Bool)
  | deleteE (position : Nat) (chars : List YChar) (isRedo : Bool)
deriving DecidableEq, Repr

/-- Replica engine state: the fields of a `SimpleYDoc` instance.  The
undo/redo stacks keep the most recently pushed entry at the head. -/
structure SimpleYDoc where
  clientId : String
  content : List YChar
  vectorClock : List (String × Nat)
  undoStack : List LedgerEntry
  redoStack : List LedgerEntry
deriving DecidableEq, Repr

/-- Read of `this.vectorClock[k] || 0`. -/
def vcGet (vc : List (String × Nat)) (k : String) : Nat :=
  match vc.find? (fun p => p.1 = k) with
  | some p => p.2
  | none => 0

/-- Write of `this.vectorClock[k] = v`. -/
def vcSet : List (String × Nat) → String → Nat → List (String × Nat)
  | [], k, v => [(k, v)]
  | p :: ps, k, v => if p.1 = k then (k, v) :: ps else p :: vcSet ps k v

/-- Values of the non-tombstoned characters, in store order. -/
def visibleValues (l : List YChar) : List Char :=
  (l.filter (fun c => !c.deleted)).map (fun c => c.value)

/-- `getText()`: filter out tombstones, keep the values, join. -/
def SimpleYDoc.getText (d : SimpleYDoc) : String :=
  String.mk (visibleValues d.content)

/-- The `insertIndex` scan of `insert`: walk the store, counting visible
characters in `idx`, and stop as soon as the count reaches `target`.
The JS code then splices at the final value of `insertIndex` (the count),
not at the array position `j` the scan stopped at. -/
def insertIndexLoop : List YChar → Nat → Nat → Nat
  | [], _, idx => idx
  | c :: cs, target, idx =>
    if c.deleted then insertIndexLoop cs target idx
    else if idx = target then idx
    else insertIndexLoop cs target (idx + 1)

/-- `Array.prototype.splice(n, 0, c)`: insert `c` at index `n`, appending
at the end when `n` is past the end. -/
def listInsertAt : Nat → YChar → List YChar → List YChar
  | 0, c, l => c :: l
  | _ + 1, c, [] => [c]
  | n + 1, c, x :: xs => x :: listInsertAt n c xs

/-- Template-literal id `` `${clientId}-${clock}` ``. -/
def mkCharId (clientId : String) (clock : Nat) : String :=
  clientId ++ "-" ++ toString clock

/-- One iteration of the `insert` loop body: mint the clock, build the
character, find the splice index, splice, and emit the op. -/
def insertOneChar (d : SimpleYDoc) (position i : Nat) (ch : Char) (origin : String) :
    SimpleYDoc × YOp :=
  let clock := vcGet d.vectorClock d.clientId + 1
  let c : YChar := ⟨mkCharId d.clientId clock, ch, d.clientId, clock, false, position + i⟩
  let idx := insertIndexLoop d.content (position + i) 0
  ({ d with vectorClock := vcSet d.vectorClock d.clientId clock,
            content := listInsertAt idx c d.content },
   ⟨.insert, c, origin⟩)

/-- The `for (let i = 0; i < text.length; i++)` loop of `insert`. -/
def insertLoop : SimpleYDoc → Nat → String → List Char → Nat → SimpleYDoc × List YOp
  | d, _, _, [], _ => (d, [])
  | d, position, origin, ch :: rest, i =>
    let p1 := insertOneChar d position i ch origin
    let p2 := insertLoop p1.1 position origin rest (i + 1)
    (p2.1, p1.2 :: p2.2)

/-- `insert(position, text, origin)`: per-unit fresh ids, splice each unit,
then (for a local origin) push the undo entry and clear the redo stack. -/
def SimpleYDoc.insert (d : SimpleYDoc) (position : Nat) (text : String) (origin : String) :
    SimpleYDoc × List YOp :=
  let p := insertLoop d position origin text.data 0
  if origin = "local" then
    ({ p.1 with undoStack := .insertE text position text.length false :: p.1.undoStack,
                redoStack := [] }, p.2)
  else (p.1, p.2)

/-- The walk of `delete`: iterate the store while `deletedCount < len`;
tombstone each visible character whose running visible position
`currentPos` has reached `position`, emitting a delete op (whose `char`
is the already-tombstoned record, as in the JS aliasing). -/
def delLoop : List YChar → Nat → Nat → Nat → Nat → String → List YChar × List YOp
  | [], _, _, _, _, _ => ([], [])
  | c :: cs, position, len, deletedCount, currentPos, origin =>
    if deletedCount < len then
      if c.deleted then
        let p := delLoop cs position len deletedCount currentPos origin
        (c :: p.1, p.2)
      else if position ≤ currentPos then
        let c1 := { c with deleted := true }
        let p := delLoop cs position len (deletedCount + 1) (currentPos + 1) origin
        (c1 :: p.1, ⟨.delete, c1, origin⟩ :: p.2)
      else
        let p := delLoop cs position len deletedCount (currentPos + 1) origin
        (c :: p.1, p.2)
    else (c :: cs, [])

/-- `delete(position, length, origin)`: run the walk, then (for a local
origin) push the undo entry recording the tombstoned characters and clear
the redo stack. -/
def SimpleYDoc.delete (d : SimpleYDoc) (position len : Nat) (origin : String) :
    SimpleYDoc × List YOp :=
  let p := delLoop d.content position len 0 0 origin
  if origin = "local" then
    ({ d with content := p.1,
              undoStack := .deleteE position (p.2.map (fun op => op.char)) false :: d.undoStack,
              redoStack := [] }, p.2)
  else ({ d with content := p.1 }, p.2)

/-- Set the `deleted` flag of every store record whose id is among `ids`.
The JS `undo`/`redo` mutate the char objects aliased by the ledger entry;
those aliases are exactly the store records with the recorded ids. -/
def setDeletedByIds (ids : List String) (flag : Bool) (l : List YChar) : List YChar :=
  l.map (fun c => if ids.contains c.id then { c with deleted := flag } else c)

/-- `undo()`: pop the top ledger entry; for an insert entry issue a
position-based `delete` with origin `'undo'`; for a delete entry clear the
tombstone flags of the recorded characters.  Push the entry (with
`isRedo: true`) onto the redo stack.  No-op on an empty stack. -/
def SimpleYDoc.undo (d : SimpleYDoc) : SimpleYDoc :=
  match d.undoStack with
  | [] => d
  | e :: rest =>
    match e with
    | .insertE text pos count _ =>
      let d1 : SimpleYDoc := { d with undoStack := rest }
      let d2 := (d1.delete pos count "undo").1
      { d2 with redoStack := .insertE text pos count true :: d2.redoStack }
    | .deleteE pos chars _ =>
      { d with undoStack := rest,
               content := setDeletedByIds (chars.map (fun c => c.id)) false d.content,
               redoStack := .deleteE pos chars true :: d.redoStack }

/-- `redo()`: symmetric to `undo`; re-inserts with origin `'redo'` or
re-tombstones the recorded characters. -/
def SimpleYDoc.redo (d : SimpleYDoc) : SimpleYDoc :=
  match d.redoStack with
  | [] => d
  | e :: rest =>
    match e with
    | .insertE text pos count r =>
      let d1 : SimpleYDoc := { d with redoStack := rest }
      let d2 := (d1.insert pos text "redo").1
      { d2 with undoStack := .insertE text pos count r :: d2.undoStack }
    | .deleteE pos chars r =>
      { d with redoStack := rest,
               content := setDeletedByIds (chars.map (fun c => c.id)) true d.content,
               undoStack := .deleteE pos chars r :: d.undoStack }

/-- The sort comparator of `applyRemoteOps`: clock difference for equal
client ids, otherwise `localeCompare` on the client ids (modelled as the
standard lexicographic string comparison). -/
def cmpChars (a b : YChar) : Int :=
  if a.clientId = b.clientId then (a.clock : Int) - (b.clock : Int)
  else
    match compare a.clientId b.clientId with
    | .lt => -1
    | .eq => 0
    | .gt => 1

/-- Stable insertion of one element into a list sorted by `cmpChars`. -/
def sortInsert (c : YChar) : List YChar → List YChar
  | [] => [c]
  | x :: xs => if cmpChars c x ≤ 0 then c :: x :: xs else x :: sortInsert c xs

/-- Stable sort by `cmpChars`, modelling `Array.prototype.sort` (stable
per the ECMAScript specification) with that comparator. -/
def sortContent : List YChar → List YChar
  | [] => []
  | x :: xs => sortInsert x (sortContent xs)

/-- `content.findIndex(c => c.id === i) !== -1` / `content.find(...)`. -/
def hasId (l : List YChar) (i : String) : Bool :=
  l.any (fun c => c.id = i)

/-- Mutation `char.deleted = true` on the first store record `find` hits. -/
def tombstoneFirst (i : String) : List YChar → List YChar
  | [] => []
  | c :: cs => if c.id = i then { c with deleted := true } :: cs else c :: tombstoneFirst i cs

/-- One step of `applyRemoteOps`: an insert of an unknown id is pushed and
the whole store re-sorted by the comparator; an insert of a known id is
skipped; a delete tombstones the referenced id if present and is silently
dropped otherwise. -/
def applyRemoteOp (d : SimpleYDoc) (op : YOp) : SimpleYDoc :=
  match op.type with
  | .insert =>
    if hasId d.content op.char.id then d
    else { d with content := sortContent (d.content ++ [op.char]) }
  | .delete =>
    if hasId d.content op.char.id then
      { d with content := tombstoneFirst op.char.id d.content }
    else d

/-- `applyRemoteOps(ops)`: fold the per-op step over the list. -/
def SimpleYDoc.applyRemoteOps (d : SimpleYDoc) (ops : List YOp) : SimpleYDoc :=
  ops.foldl applyRemoteOp d

/-- A freshly constructed `SimpleYDoc` for the given client id. -/
def freshDoc (clientId : String) : SimpleYDoc :=
  ⟨clientId, [], [], [], []⟩

/-- Session state relevant to `handleUpdate`: `ws.currentDoc` (the joined
document id, or null). -/
structure Session where
  currentDoc : Option String
deriving DecidableEq, Repr

/-- Server document table.  `Y.applyUpdate` (the external Yjs library) is
modelled abstractly: a document's canonical state is the list of update
payloads that have been merged into it, in merge order. -/
structure ServerState where
  documents : List (String × List (List Nat))
deriving DecidableEq, Repr

/-- What `handleUpdate` sends back to the submitting session. -/
inductive WsResponse
  | noResponse
  | errorMsg (message : String)
deriving DecidableEq, Repr

/-- `documents.get(docId)` restricted to the merge log. -/
def lookupDoc (serv : ServerState) (docId : String) : Option (List (List Nat)) :=
  (serv.documents.find? (fun p => p.1 = docId)).map (fun p => p.2)

/-- Merge an update into the table entry for `docId` (abstract
`doc.applyUpdate`). -/
def mergeIntoDoc (docs : List (String × List (List Nat))) (docId : String) (u : List Nat) :
    List (String × List (List Nat)) :=
  docs.map (fun p => if p.1 = docId then (p.1, p.2 ++ [u]) else p)

/-- `handleUpdate(ws, message)` from server.js: reject with the error
`"Not in document"` unless `ws.currentDoc === docId`; otherwise merge the
update into the document if the table has it (silently doing nothing when
it does not). -/
def handleUpdate (ws : Session) (serv : ServerState) (docId : String) (u : List Nat) :
    ServerState × WsResponse :=
  if ws.currentDoc ≠ some docId then (serv, .errorMsg "Not in document")
  else if (serv.documents.find? (fun p => p.1 = docId)).isSome then
    (⟨mergeIntoDoc serv.documents docId u⟩, .noResponse)
  else (serv, .noResponse)


/-! Concrete replica states and operations used by the divergence theorems
and by the witnesses of the universally quantified theorems. -/

/-- Replica P of the convergence scenario after its first local edit,
`insert(0,"b")`, together with the emitted operations. -/
def convP1 : SimpleYDoc × List YOp := (freshDoc "p").insert 0 "b" "local"

/-- Replica P after its second local edit, `insert(0,"a")`. -/
def convP2 : SimpleYDoc × List YOp := convP1.1.insert 0 "a" "local"

/-- Replica Q, fed the very same two operations through `applyRemoteOps`. -/
def convQ : SimpleYDoc := (freshDoc "q").applyRemoteOps (convP1.2 ++ convP2.2)

/-- Character inserted by the commutativity scenario. -/
def commChar : YChar := ⟨"a-1", 'X', "a", 1, false, 0⟩

/-- The insert operation A of the commutativity scenario. -/
def commIns : YOp := ⟨.insert, commChar, "remote"⟩

/-- The delete operation B of the commutativity scenario (its char is the
tombstoned record, as emitted by `delete`). -/
def commDel : YOp := ⟨.delete, { commChar with deleted := true }, "remote"⟩

/-- Document with a leading tombstone: `insert(0,"tab")` then
`delete(0,1)`, leaving visible text "ab" over the store `[tomb, a, b]`. -/
def tombDoc : SimpleYDoc :=
  ((((freshDoc "a").insert 0 "tab" "local").1).delete 0 1 "local").1

/-- Participant P1 (client id "b") inserting "X" at position 0. -/
def isoP1 : SimpleYDoc × List YOp := (freshDoc "b").insert 0 "X" "local"

/-- Participant P2 (client id "a") inserting "Y" at position 0. -/
def isoP2 : SimpleYDoc × List YOp := (freshDoc "a").insert 0 "Y" "local"

/-- P1's replica after merging P2's operation. -/
def isoP1m : SimpleYDoc := isoP1.1.applyRemoteOps isoP2.2

/-- P2's replica after merging P1's operation. -/
def isoP2m : SimpleYDoc := isoP2.1.applyRemoteOps isoP1.2

/-- One application of the reordered operation set `[B,A]` of the
idempotence scenario. -/
def idemOnce : SimpleYDoc := (freshDoc "r").applyRemoteOps [commDel, commIns]

/-- The tombstoned document after a further local `insert(1,"X")`; its
visible text is "Xab". -/
def fidDoc : SimpleYDoc := (tombDoc.insert 1 "X" "local").1

/-- Two-character document "ab" used to witness the delete specification. -/
def wit7Doc : SimpleYDoc :=
  ⟨"a", [⟨"a-1", 'a', "a", 1, false, 0⟩, ⟨"a-2", 'b', "a", 2, false, 1⟩], [("a", 2)], [], []⟩

/-- One-character document used to witness the unknown-delete policy. -/
def wit10Doc : SimpleYDoc := ⟨"r", [⟨"z-1", 'z', "z", 1, false, 0⟩], [], [], []⟩

/-- Character whose delete precedes its insert in the witness of the
unknown-delete policy. -/
def wit10Char : YChar := ⟨"a-1", 'X', "a", 1, false, 0⟩

/-- Server with one empty document "doc", witnessing the update dispatch. -/
def wit9Serv : ServerState := ⟨[("doc", [])]⟩

/-! Helper lemmas. -/

/-- The per-unit insert loop never touches the undo or redo stack. -/
lemma insertLoop_stacks (text : List Char) : ∀ (d : SimpleYDoc) (position : Nat)
    (origin : String) (i : Nat),
    (insertLoop d position origin text i).1.undoStack = d.undoStack ∧
    (insertLoop d position origin text i).1.redoStack = d.redoStack := by
  induction text with
  | nil => intro d position origin i; exact ⟨rfl, rfl⟩
  | cons ch rest ih =>
    intro d position origin i
    have h := ih (insertOneChar d position i ch origin).1 position origin (i + 1)
    exact ⟨h.1, h.2⟩

/-- Unfolding of `visibleValues` over a cons cell. -/
lemma visibleValues_cons (c : YChar) (cs : List YChar) :
    visibleValues (c :: cs) =
      if c.deleted then visibleValues cs else c.value :: visibleValues cs := by
  by_cases h : c.deleted <;> simp [visibleValues, h]

/-- Every operation the delete walk emits is a delete. -/
lemma delLoop_ops_type (l : List YChar) : ∀ (posn len dc cp : Nat) (origin : String)
    (op : YOp), op ∈ (delLoop l posn len dc cp origin).2 → op.type = YOpType.delete := by
  induction l with
  | nil => intro posn len dc cp origin op h; simp [delLoop] at h
  | cons c cs ih =>
    intro posn len dc cp origin op h
    by_cases h1 : dc < len
    · by_cases h2 : c.deleted
      · simp [delLoop, h1, h2] at h
        exact ih posn len dc cp origin op h
      · by_cases h3 : posn ≤ cp
        · simp [delLoop, h1, h2, h3] at h
          rcases h with h | h
          · subst h; rfl
          · exact ih posn len (dc + 1) (cp + 1) origin op h
        · simp [delLoop, h1, h2, h3] at h
          exact ih posn len dc (cp + 1) origin op h
    · simp [delLoop, h1] at h

/-- Once the walk has reached the target visible position (`posn ≤ cp`),
it tombstones the next `len - dc` visible characters: the visible text of
the result drops exactly that prefix, and one op is emitted per
tombstoned character. -/
lemma delLoop_from_here (l : List YChar) : ∀ (posn len dc cp : Nat) (origin : String),
    posn ≤ cp →
    visibleValues (delLoop l posn len dc cp origin).1 =
      (visibleValues l).drop (len - dc) ∧
    (delLoop l posn len dc cp origin).2.length =
      min (len - dc) (visibleValues l).length := by
  induction l with
  | nil =>
    intro posn len dc cp origin _
    constructor <;> simp [delLoop, visibleValues]
  | cons c cs ih =>
    intro posn len dc cp origin hcp
    by_cases h1 : dc < len
    · by_cases h2 : c.deleted
      · have h := ih posn len dc cp origin hcp
        simp [delLoop, h1, h2, visibleValues_cons, h.1, h.2]
      · obtain ⟨k, hk⟩ : ∃ k, len - dc = k + 1 := ⟨len - dc - 1, by omega⟩
        have hk' : len - (dc + 1) = k := by omega
        have h := ih posn len (dc + 1) (cp + 1) origin (by omega)
        rw [hk'] at h
        constructor
        · simp [delLoop, h1, h2, hcp, visibleValues_cons, h.1, hk]
        · simp [delLoop, h1, h2, hcp, h.2, visibleValues_cons, hk, Nat.succ_min_succ]
    · have hz : len - dc = 0 := by omega
      simp [delLoop, h1, hz]

/-- Behaviour of the full delete walk started with a zero counter: within
bounds it removes the visible range `[posn - cp, posn - cp + len)` and
emits exactly `len` operations. -/
lemma delLoop_main (l : List YChar) : ∀ (posn len cp : Nat) (origin : String),
    cp ≤ posn →
    (posn - cp) + len ≤ (visibleValues l).length →
    visibleValues (delLoop l posn len 0 cp origin).1 =
      (visibleValues l).take (posn - cp) ++ (visibleValues l).drop ((posn - cp) + len) ∧
    (delLoop l posn len 0 cp origin).2.length = len := by
  induction l with
  | nil =>
    intro posn len cp origin hcp hb
    simp [visibleValues] at hb
    have h1 : len = 0 := by omega
    have h2 : posn - cp = 0 := by omega
    simp [delLoop, visibleValues, h1, h2]
  | cons c cs ih =>
    intro posn len cp origin hcp hb
    by_cases hlen : 0 < len
    · by_cases h2 : c.deleted
      · have hb' : (posn - cp) + len ≤ (visibleValues cs).length := by
          simpa [visibleValues_cons, h2] using hb
        have h := ih posn len cp origin hcp hb'
        simp [delLoop, hlen, h2, visibleValues_cons, h.1, h.2]
      · by_cases h3 : posn ≤ cp
        · have hpe : posn - cp = 0 := by omega
          have h := delLoop_from_here cs posn len 1 (cp + 1) origin (by omega)
          obtain ⟨k, hk⟩ : ∃ k, len = k + 1 := ⟨len - 1, by omega⟩
          subst hk
          have hk1 : k + 1 - 1 = k := by omega
          rw [hk1] at h
          have hbc : k ≤ (visibleValues cs).length := by
            have hb2 := hb
            simp [visibleValues_cons, h2] at hb2
            omega
          constructor
          · simp [delLoop, hlen, h2, h3, visibleValues_cons, h.1, hpe]
          · simp [delLoop, hlen, h2, h3, h.2, hpe]
            omega
        · have hb' : (posn - (cp + 1)) + len ≤ (visibleValues cs).length := by
            have hb2 := hb
            simp [visibleValues_cons, h2] at hb2
            omega
          have h := ih posn len (cp + 1) origin (by omega) hb'
          obtain ⟨k, hk⟩ : ∃ k, posn - cp = k + 1 := ⟨posn - cp - 1, by omega⟩
          have hk' : posn - (cp + 1) = k := by omega
          rw [hk'] at h
          have harith : k + 1 + len = (k + len) + 1 := by omega
          constructor
          · simp [delLoop, hlen, h2, h3, visibleValues_cons, h.1, hk, harith]
          · simp [delLoop, hlen, h2, h3, h.2]
    · have hz : len = 0 := by omega
      subst hz
      constructor <;> simp [delLoop]

/-- Both origin branches of `delete` produce the walk's store and ops. -/
lemma delete_proj (d : SimpleYDoc) (pos len : Nat) (origin : String) :
    (d.delete pos len origin).1.content = (delLoop d.content pos len 0 0 origin).1 ∧
    (d.delete pos len origin).2 = (delLoop d.content pos len 0 0 origin).2 := by
  by_cases ho : origin = "local" <;> simp [SimpleYDoc.delete, ho]

/-- Membership through the stable insertion step of the merge sort. -/
lemma mem_sortInsert (y c : YChar) (l : List YChar) :
    y ∈ sortInsert c l ↔ y = c ∨ y ∈ l := by
  induction l with
  | nil => simp [sortInsert]
  | cons x xs ih =>
    by_cases h : cmpChars c x ≤ 0
    · simp [sortInsert, h]
    · simp [sortInsert, h, ih]
      tauto

/-- The merge sort permutes the store: membership is unchanged. -/
lemma mem_sortContent (y : YChar) (l : List YChar) : y ∈ sortContent l ↔ y ∈ l := by
  induction l with
  | nil => simp [sortContent]
  | cons x xs ih => simp [sortContent, mem_sortInsert, ih]

/-- Merging an update into the table appends it to the addressed
document's log. -/
lemma lookupDoc_merge (docs : List (String × List (List Nat))) (docId : String)
    (u : List Nat) (log : List (List Nat))
    (h : (docs.find? (fun p => p.1 = docId)).map (fun p => p.2) = some log) :
    ((mergeIntoDoc docs docId u).find? (fun p => p.1 = docId)).map (fun p => p.2) =
      some (log ++ [u]) := by
  induction docs with
  | nil => simp at h
  | cons p ps ih =>
    by_cases hp : p.1 = docId
    · rw [List.find?_cons_of_pos ps (by simp [hp])] at h
      rw [Option.map_some'] at h
      have hl : p.2 = log := Option.some.inj h
      show ((List.map _ (p :: ps)).find? _).map _ = _
      rw [List.map_cons]
      simp only [if_pos hp]
      rw [List.find?_cons_of_pos _ (by simp [hp])]
      rw [Option.map_some', hl]
    · rw [List.find?_cons_of_neg ps (by simp [hp])] at h
      have hm := ih h
      show ((List.map _ (p :: ps)).find? _).map _ = _
      rw [List.map_cons]
      simp only [if_neg hp]
      rw [List.find?_cons_of_neg _ (by simp [hp])]
      exact hm

/-! Claim theorems. -/

/-- C1: the convergence guarantee fails on the code.  Replica P locally
runs `insert(0,"b")` then `insert(0,"a")` and reads "ab"; replica Q
applies the same two operations (the same operation set, in the same
order) via `applyRemoteOps` and reads "ba", because the remote merge
re-sorts the whole store by `(clientId, clock)` and discards the position
information.  The claim says both replicas read the identical string. -/
theorem convergence_violation :
    convP2.1.getText = "ab" ∧ convQ.getText = "ba" ∧ convP2.1.getText ≠ convQ.getText := by
  decide

/-- C2: commutativity fails for a delete that references the id created
by the insert.  Applying `[A,B]` (insert then delete) to a fresh replica
leaves the character tombstoned (text ""), while `[B,A]` silently drops
the delete, the later insert arrives as visible, and the text is "X";
the two orders diverge even though both replicas have seen the insert. -/
theorem commutativity_violation :
    ((freshDoc "r").applyRemoteOps [commIns, commDel]).getText = "" ∧
    ((freshDoc "r").applyRemoteOps [commDel, commIns]).getText = "X" ∧
    ((freshDoc "r").applyRemoteOps [commIns, commDel]).getText ≠
      ((freshDoc "r").applyRemoteOps [commDel, commIns]).getText := by
  decide

/-- C3: visible-position insertion fails once a tombstone precedes the
position.  On visible text "ab" over the store `[tomb, a, b]`,
`insert(1, "X")` splices at the raw array index 1 — the final value of
the visible-count scan, not the scanned store index — yielding "Xab"
instead of the claimed "aXb". -/
theorem insert_position_violation :
    tombDoc.getText = "ab" ∧
    ((tombDoc.insert 1 "X" "local").1).getText = "Xab" ∧
    ((tombDoc.insert 1 "X" "local").1).getText ≠ "aXb" := by
  decide

/-- C4: undo isolation fails.  With P1 = client "b" inserting "X" and
P2 = client "a" inserting "Y", both replicas converge to "YX" (the merge
sorts client "a" first).  P1's `undo()` then issues a position-based
`delete(0,1)`, which tombstones P2's "Y": the converged text becomes
"X", removing the other participant's character and keeping P1's own,
where the claim says "X" is removed and "Y" remains. -/
theorem undo_isolation_violation :
    isoP1m.getText = "YX" ∧ isoP2m.getText = "YX" ∧ isoP1m.undo.getText = "X" := by
  decide

/-- C5: idempotence fails.  Applying the operation set
`[delete x, insert x]` once to a fresh replica leaves "X" visible (the
delete is dropped, the insert lands); applying the very same set a
second time finds the id present, tombstones it, and the state changes
to text "", contradicting apply-twice-equals-apply-once. -/
theorem idempotence_violation :
    idemOnce.getText = "X" ∧
    (idemOnce.applyRemoteOps [commDel, commIns]).getText = "" ∧
    idemOnce.applyRemoteOps [commDel, commIns] ≠ idemOnce := by
  decide

/-- C6: undo fidelity fails for a general local insert.  On visible text
"ab" over the store `[tomb, a, b]`, `insert(1,"X")` yields "Xab";
`undo()` then deletes one character at visible position 1 — the
character "a" of the original text — leaving "Xb" instead of restoring
the pre-insert text "ab". -/
theorem undo_fidelity_violation :
    tombDoc.getText = "ab" ∧ fidDoc.undo.getText = "Xb" ∧ fidDoc.undo.getText ≠ "ab" := by
  decide

/-- C7: `delete(position, length)` walks the visible characters from
visible position `position`, tombstones exactly `length` of them, and
returns one delete operation per tombstoned character, so that the
visible text afterwards is the old text with the range
`[position, position + length)` removed — for every document state and
in-range call, and for every origin. -/
theorem delete_spec (d : SimpleYDoc) (pos len : Nat) (origin : String)
    (h : pos + len ≤ d.getText.length) :
    (d.delete pos len origin).1.getText.data =
      d.getText.data.take pos ++ d.getText.data.drop (pos + len) ∧
    (d.delete pos len origin).2.length = len ∧
    ∀ op ∈ (d.delete pos len origin).2, op.type = YOpType.delete := by
  obtain ⟨hc, hops⟩ := delete_proj d pos len origin
  have hb : (pos - 0) + len ≤ (visibleValues d.content).length := by
    simpa [SimpleYDoc.getText, String.length] using h
  obtain ⟨hv, hl⟩ := delLoop_main d.content pos len 0 origin (Nat.zero_le _) hb
  refine ⟨?_, ?_, ?_⟩
  · simp [SimpleYDoc.getText, hc, hv]
  · rw [hops, hl]
  · intro op hop
    rw [hops] at hop
    exact delLoop_ops_type d.content pos len 0 0 origin op hop

/-- Witness for the delete specification: deleting one character at
visible position 1 of the two-character document "ab". -/
theorem delete_spec_witness :
    (wit7Doc.delete 1 1 "local").1.getText.data =
      wit7Doc.getText.data.take 1 ++ wit7Doc.getText.data.drop (1 + 1) ∧
    (wit7Doc.delete 1 1 "local").2.length = 1 :=
  ⟨(delete_spec wit7Doc 1 1 "local" (by decide)).1,
   (delete_spec wit7Doc 1 1 "local" (by decide)).2.1⟩

/-- C8: ledger discipline.  `insert` and `delete` push an undo entry and
clear the redo stack exactly when the origin is the string "local"; any
other origin ("remote", "undo", "redo", ...) leaves both stacks exactly
as they were. -/
theorem ledger_discipline (d : SimpleYDoc) (pos len : Nat) (text : String) (origin : String) :
    ((d.insert pos text origin).1.undoStack =
      if origin = "local" then LedgerEntry.insertE text pos text.length false :: d.undoStack
      else d.undoStack) ∧
    ((d.insert pos text origin).1.redoStack =
      if origin = "local" then [] else d.redoStack) ∧
    ((d.delete pos len origin).1.undoStack =
      if origin = "local" then
        LedgerEntry.deleteE pos ((d.delete pos len origin).2.map (fun op => op.char)) false ::
          d.undoStack
      else d.undoStack) ∧
    ((d.delete pos len origin).1.redoStack =
      if origin = "local" then [] else d.redoStack) := by
  by_cases h : origin = "local"
  · subst h
    have hstacks := insertLoop_stacks text.data d pos "local" 0
    simp [SimpleYDoc.insert, SimpleYDoc.delete, hstacks.1, hstacks.2]
  · have hstacks := insertLoop_stacks text.data d pos origin 0
    simp [SimpleYDoc.insert, SimpleYDoc.delete, h, hstacks.1, hstacks.2]

/-- C9: `handleUpdate` dispatch.  When the session's joined document is
not the update's `docId` (or it has joined none), the server answers
with the error "Not in document" and the document table is untouched;
when it matches and the document exists, no error is sent and the update
is merged into (appended to the log of) the canonical document. -/
theorem handleUpdate_spec (ws : Session) (serv : ServerState) (docId : String) (u : List Nat) :
    (ws.currentDoc ≠ some docId →
      handleUpdate ws serv docId u = (serv, WsResponse.errorMsg "Not in document")) ∧
    (∀ log, ws.currentDoc = some docId → lookupDoc serv docId = some log →
      (handleUpdate ws serv docId u).2 = WsResponse.noResponse ∧
      lookupDoc (handleUpdate ws serv docId u).1 docId = some (log ++ [u])) := by
  constructor
  · intro h
    simp [handleUpdate, h]
  · intro log h hlog
    have hsome : (serv.documents.find? (fun p => p.1 = docId)).isSome = true := by
      unfold lookupDoc at hlog
      cases hfind : serv.documents.find? (fun p => p.1 = docId) with
      | none => rw [hfind] at hlog; simp at hlog
      | some p => simp [hfind]
    have hmerge := lookupDoc_merge serv.documents docId u log hlog
    constructor
    · simp [handleUpdate, h, hsome]
    · have hred : handleUpdate ws serv docId u =
          (⟨mergeIntoDoc serv.documents docId u⟩, WsResponse.noResponse) := by
        simp [handleUpdate, h, hsome]
      rw [hred]
      exact hmerge

/-- Witness for the update dispatch: a session that joined nothing is
rejected; a session joined to "doc" gets its update appended. -/
theorem handleUpdate_spec_witness :
    handleUpdate ⟨none⟩ wit9Serv "doc" [1, 2] =
      (wit9Serv, WsResponse.errorMsg "Not in document") ∧
    (handleUpdate ⟨some "doc"⟩ wit9Serv "doc" [1, 2]).2 = WsResponse.noResponse ∧
    lookupDoc (handleUpdate ⟨some "doc"⟩ wit9Serv "doc" [1, 2]).1 "doc" = some [[1, 2]] :=
  ⟨(handleUpdate_spec ⟨none⟩ wit9Serv "doc" [1, 2]).1 (by decide),
   ((handleUpdate_spec ⟨some "doc"⟩ wit9Serv "doc" [1, 2]).2 [] rfl (by decide)).1,
   ((handleUpdate_spec ⟨some "doc"⟩ wit9Serv "doc" [1, 2]).2 [] rfl (by decide)).2⟩

/-- C10: a remote delete whose character id is not in the store leaves
the replica state completely unchanged (nothing is buffered), and when
the matching insert arrives in a later `applyRemoteOps` call the
character enters the store visible (not tombstoned). -/
theorem unknown_delete_dropped (d : SimpleYDoc) (c : YChar)
    (h1 : ∀ ch ∈ d.content, ch.id ≠ c.id) (h2 : c.deleted = false) :
    d.applyRemoteOps [⟨YOpType.delete, { c with deleted := true }, "remote"⟩] = d ∧
    c ∈ ((d.applyRemoteOps [⟨YOpType.delete, { c with deleted := true }, "remote"⟩]).applyRemoteOps
        [⟨YOpType.insert, c, "remote"⟩]).content.filter (fun ch => !ch.deleted) := by
  have hid : hasId d.content c.id = false := by
    simp [hasId]
    exact h1
  constructor
  · simp [SimpleYDoc.applyRemoteOps, applyRemoteOp, hid]
  · simp [SimpleYDoc.applyRemoteOps, applyRemoteOp, hid, List.mem_filter, mem_sortContent, h2]

/-- Witness for the unknown-delete policy on a one-character store. -/
theorem unknown_delete_dropped_witness :
    wit10Doc.applyRemoteOps [⟨YOpType.delete, { wit10Char with deleted := true }, "remote"⟩] =
      wit10Doc ∧
    wit10Char ∈ ((wit10Doc.applyRemoteOps
        [⟨YOpType.delete, { wit10Char with deleted := true }, "remote"⟩]).applyRemoteOps
        [⟨YOpType.insert, wit10Char, "remote"⟩]).content.filter (fun ch => !ch.deleted) :=
  unknown_delete_dropped wit10Doc wit10Char (by decide) (by decide)
